import Mathlib

/-!
Shallow embedding of the `realview_chat` image-classification pipeline
(files `src/realview_chat/pipeline/pass1.py`, `pass2.py`, `pass25.py`,
`property_processor.py` and `src/realview_chat/utils/retry.py`),
together with theorems checking the natural-language specification
against it.

Modelling conventions:
- Python `float` confidences are modelled by `ℚ` (the claims only move
  them around, never compute with them).
- Exceptions are modelled by `Except ε`; the client (`LLMClient`
  protocol) is a record of possibly-failing functions.
- `datetime.now(...)` is modelled by passing the timestamp string
  `created_at` as an explicit argument.
- Python `dict` (insertion-ordered, overwrite keeps the position of an
  existing key) is modelled by an association list with `dictInsert`.
- The orchestrator is instrumented with a trace of the backend calls it
  makes (`CallEvent`), so that claims about which stage is invoked on
  which image can be stated.
-/

namespace RealviewChat

/-- Error type abbreviation used by concrete scenario clients. -/
abbrev Err := String

/-! ### Data model (dataclasses from pass1.py / pass2.py / pass25.py) -/

/-- Result of pipeline pass 1 (gating), dataclass `Pass1Result`. -/
structure Pass1Result where
  room_type : String
  actionable : Bool
  confidence : ℚ
deriving DecidableEq, Repr

/-- One feature observation from pass 2, dataclass `FeatureResult`. -/
structure FeatureResult where
  feature_id : String
  severity : String
  confidence : ℚ
  explanation : String
deriving DecidableEq, Repr

/-- One consolidated feature from pass 2.5, dataclass `ConsolidatedFeature`. -/
structure ConsolidatedFeature where
  feature_id : String
  severity : String
  confidence : ℚ
  evidence : String
deriving DecidableEq, Repr

/-- Result of one pass 2.5 call, dataclass `Pass25Result`. -/
structure Pass25Result where
  room_type : String
  confirmed_features : List ConsolidatedFeature
deriving DecidableEq, Repr

/-! ### Raw backend responses (the dicts returned by the `LLMClient` protocol) -/

/-- Raw dict returned by `client.pass1`: room_type, actionable, confidence. -/
structure Pass1Raw where
  room_type : String
  actionable : Bool
  confidence : ℚ
deriving DecidableEq, Repr

/-- Raw dict returned by `client.pass2`: a list of feature items. -/
structure FeatureItemRaw where
  feature_id : String
  severity : String
  confidence : ℚ
  explanation : String
deriving DecidableEq, Repr

/-- Raw dict returned by `client.pass2` (`result["features"]`). -/
structure Pass2Raw where
  features : List FeatureItemRaw
deriving DecidableEq, Repr

/-- Raw consolidated-feature item returned by `client.pass25`. -/
structure ConsItemRaw where
  feature_id : String
  severity : String
  confidence : ℚ
  evidence : String
deriving DecidableEq, Repr

/-- Raw dict returned by `client.pass25`. -/
structure Pass25Raw where
  room_type : String
  confirmed_features : List ConsItemRaw
deriving DecidableEq, Repr

/-- The `LLMClient` protocol of `openai_client/responses.py`: three
backend operations, each of which may fail (raise). `ε` is the type of
the raised errors. -/
structure LLMClient (ε : Type) where
  pass1 : String → Except ε Pass1Raw
  pass2 : String → Except ε Pass2Raw
  pass25 : String → List String → Except ε Pass25Raw

/-! ### Stage functions (pass1.py, pass2.py, pass25.py) -/

/-- Set `ALLOWED_ROOMS` from pass1.py. -/
def ALLOWED_ROOMS : List String := ["bathroom", "kitchen"]

/-- Function `run_pass1` from pass1.py: delegate to `client.pass1`, then
force `actionable = false` when the room type is not allowed. -/
def run_pass1 (client : LLMClient ε) (image_data_url : String) :
    Except ε Pass1Result := do
  let result ← client.pass1 image_data_url
  let room_type := result.room_type
  let actionable := result.actionable
  let actionable := if ALLOWED_ROOMS.contains room_type then actionable else false
  pure { room_type := room_type, actionable := actionable,
         confidence := result.confidence }

/-- Function `run_pass2` from pass2.py: delegate to `client.pass2` and
repackage each raw item as a `FeatureResult`. -/
def run_pass2 (client : LLMClient ε) (image_data_url : String) :
    Except ε (List FeatureResult) := do
  let result ← client.pass2 image_data_url
  pure (result.features.map (fun item =>
    { feature_id := item.feature_id, severity := item.severity,
      confidence := item.confidence, explanation := item.explanation }))

/-- Function `run_pass25` from pass25.py: delegate to `client.pass25`
and repackage the raw result as a `Pass25Result`. -/
def run_pass25 (client : LLMClient ε) (room_type : String)
    (image_data_urls : List String) : Except ε Pass25Result := do
  let result ← client.pass25 room_type image_data_urls
  pure { room_type := result.room_type,
         confirmed_features := result.confirmed_features.map (fun item =>
           { feature_id := item.feature_id, severity := item.severity,
             confidence := item.confidence, evidence := item.evidence }) }

/-! ### Python dict model -/

/-- Python `d[k] = v` on an insertion-ordered dict: overwriting an
existing key keeps its position, a new key is appended at the end. -/
def dictInsert (d : List (String × α)) (k : String) (v : α) :
    List (String × α) :=
  if d.any (fun p => p.1 == k) then
    d.map (fun p => if p.1 == k then (p.1, v) else p)
  else
    d ++ [(k, v)]

/-- Python `d.get(k)`. -/
def dictGet? (d : List (String × α)) (k : String) : Option α :=
  (d.find? (fun p => p.1 == k)).map (fun p => p.2)

/-- Python `d.setdefault(k, []).append(v)`: append `v` to the list at
key `k`, creating the bucket (at the end) if the key is new. -/
def groupAppend (d : List (String × List α)) (k : String) (v : α) :
    List (String × List α) :=
  if d.any (fun p => p.1 == k) then
    d.map (fun p => if p.1 == k then (p.1, p.2 ++ [v]) else p)
  else
    d ++ [(k, [v])]

/-! ### Orchestrator (property_processor.py) -/

/-- Generator `_chunk_images` from property_processor.py: the loop
`for i in range(0, len(items), chunk_size): yield items[i : i + chunk_size]`.
For a positive step, `range(0, n, step)` has `⌈n / step⌉` elements
`0, step, 2·step, …`, and the slice `items[i : i + chunk_size]` is
`(items.drop i).take chunk_size`. (A step of 0 raises in Python; the
orchestrator only ever calls this with chunk size 4, and the model
returns `[]` in that unreachable case since `_ / 0 = 0` on `ℕ`.) -/
def _chunk_images (items : List α) (chunk_size : ℕ) : List (List α) :=
  (List.range ((items.length + chunk_size - 1) / chunk_size)).map
    (fun i => (items.drop (i * chunk_size)).take chunk_size)

/-- One backend call made by the orchestrator, recorded in the
instrumentation trace. -/
inductive CallEvent where
  | pass1Call (image_data_url : String)
  | pass2Call (image_data_url : String)
  | pass25Call (room_type : String) (image_data_urls : List String)
deriving DecidableEq, Repr

/-- The first loop of `_process_images`: for every `(path.name,
data_url)` pair, run pass 1 and pass 2 and store both results keyed by
filename. Returns the two result dicts and the trace of backend calls. -/
def gateLoop (client : LLMClient ε) :
    List (String × String) →
    List (String × Pass1Result) → List (String × List FeatureResult) →
    List CallEvent →
    Except ε (List (String × Pass1Result) × List (String × List FeatureResult)
              × List CallEvent)
  | [], p1_results, p2_results, trace => .ok (p1_results, p2_results, trace)
  | (name, data_url) :: rest, p1_results, p2_results, trace => do
    let pass1 ← run_pass1 client data_url
    let p1_results := dictInsert p1_results name pass1
    let pass2 ← run_pass2 client data_url
    let p2_results := dictInsert p2_results name pass2
    gateLoop client rest p1_results p2_results
      (trace ++ [CallEvent.pass1Call data_url, CallEvent.pass2Call data_url])

/-- The grouping loop of `_process_images`: bucket by `room_type` the
images whose stored pass-1 result exists and is actionable, preserving
enumeration order. -/
def buildRoomGroups (p1_results : List (String × Pass1Result)) :
    List (String × String) → List (String × List (String × String)) →
    List (String × List (String × String))
  | [], groups => groups
  | (name, data_url) :: rest, groups =>
    match dictGet? p1_results name with
    | none => buildRoomGroups p1_results rest groups
    | some pass1 =>
      if pass1.actionable then
        buildRoomGroups p1_results rest
          (groupAppend groups pass1.room_type (name, data_url))
      else
        buildRoomGroups p1_results rest groups

/-- The inner chunk loop of the consolidation phase: one `run_pass25`
call per chunk, on the chunk's data URLs. -/
def consolidateChunks (client : LLMClient ε) (room_type : String) :
    List (List (String × String)) →
    Except ε (List Pass25Result × List CallEvent)
  | [] => .ok ([], [])
  | chunk :: rest => do
    let image_data_urls := chunk.map (fun p => p.2)
    let result ← run_pass25 client room_type image_data_urls
    let (results, trace) ← consolidateChunks client room_type rest
    .ok (result :: results,
         CallEvent.pass25Call room_type image_data_urls :: trace)

/-- The consolidation loop of `_process_images`: skip buckets with fewer
than 2 images, otherwise consolidate each chunk of size 4. -/
def consolidateGroups (client : LLMClient ε) :
    List (String × List (String × String)) →
    Except ε (List Pass25Result × List CallEvent)
  | [] => .ok ([], [])
  | (room_type, items) :: rest =>
    if items.length < 2 then consolidateGroups client rest
    else do
      let (results, trace) ←
        consolidateChunks client room_type (_chunk_images items 4)
      let (results', trace') ← consolidateGroups client rest
      .ok (results ++ results', trace ++ trace')

/-- One per-image record of the output (`all_image_entries` element). -/
structure ImageEntry where
  filename : String
  pass1 : Pass1Result
  pass2 : List FeatureResult
deriving DecidableEq, Repr

/-- The assembled output dict of `_process_images` (`PropertyResult`). -/
structure PropertyResult where
  property_id : String
  created_at : String
  images : List ImageEntry
  target_images : List String
  review_images : List String
  rooms : List Pass25Result
deriving DecidableEq, Repr

/-- Set `target_rooms` from `_process_images`. -/
def target_rooms : List String := ["kitchen", "bathroom"]

/-- The `all_image_entries` comprehension: one entry per key of the
pass-1 dict (in insertion order), pairing it with its pass-2 list. In
the source `pass2_results[filename]` always succeeds because both dicts
receive every filename in the same loop iteration; the model defaults
to `[]` for the impossible missing case. -/
def assembleEntries (p1_results : List (String × Pass1Result))
    (p2_results : List (String × List FeatureResult)) : List ImageEntry :=
  p1_results.map (fun kv =>
    { filename := kv.1, pass1 := kv.2,
      pass2 := (dictGet? p2_results kv.1).getD [] })

/-- The `target_images` comprehension: entries whose room type is a
target room and whose actionable flag is true. -/
def targetEntries (entries : List ImageEntry) : List ImageEntry :=
  entries.filter (fun img =>
    target_rooms.contains img.pass1.room_type && img.pass1.actionable)

/-- The `review_images` comprehension: entries whose filename is not
among the target filenames. -/
def reviewEntries (entries : List ImageEntry) : List ImageEntry :=
  let target_filenames := (targetEntries entries).map (fun img => img.filename)
  entries.filter (fun img => !(target_filenames.contains img.filename))

/-- Function `_process_images` from property_processor.py, instrumented
with the trace of backend calls. `images_with_urls` is the
`load_images_as_data_urls` output as `(path.name, data_url)` pairs;
`created_at` stands for `datetime.now(timezone.utc).isoformat()`. -/
def _process_images (property_id : String) (created_at : String)
    (images_with_urls : List (String × String)) (client : LLMClient ε) :
    Except ε (PropertyResult × List CallEvent) := do
  let (p1_results, p2_results, trace1) ←
    gateLoop client images_with_urls [] [] []
  let room_groups := buildRoomGroups p1_results images_with_urls []
  let (pass25_results, trace2) ← consolidateGroups client room_groups
  let all_image_entries := assembleEntries p1_results p2_results
  let target := targetEntries all_image_entries
  let review := reviewEntries all_image_entries
  .ok ({ property_id := property_id, created_at := created_at,
         images := all_image_entries,
         target_images := target.map (fun img => img.filename),
         review_images := review.map (fun img => img.filename),
         rooms := pass25_results }, trace1 ++ trace2)

/-! ### Retry helper (utils/retry.py) -/

/-- Outcome of `with_retry`: either the operation's value or a
`RetryError` wrapping the last failure (`raise RetryError(...) from exc`). -/
inductive RetryOutcome (ε α : Type) where
  | ok (v : α)
  | exhausted (last : ε)
deriving DecidableEq, Repr

/-- The `while True` loop of `with_retry`, as recursion on the exact
number `remaining` of retries still permitted (the loop raises as soon
as `attempt > max_retries`, so `remaining = max_retries - attempt` and
the test `attempt + 1 > max_retries` is exactly `remaining = 0`).
`fn i` is what the `i`-th invocation of the zero-argument operation
returns; `attempt` counts the failures so far, so the sleep after the
`attempt`-th failure is `backoff_seconds * 2 ^ attempt` (source:
`backoff_seconds * (2 ** (attempt - 1))` after `attempt += 1`).
Returns the outcome, the list of sleep durations in order, and the
number of invocations of `fn`. -/
def retryGo (fn : ℕ → Except ε α) (backoff_seconds : ℚ) :
    (attempt : ℕ) → (remaining : ℕ) → RetryOutcome ε α × List ℚ × ℕ
  | attempt, remaining =>
    match fn attempt with
    | .ok v => (.ok v, [], 1)
    | .error exc =>
      match remaining with
      | 0 => (.exhausted exc, [], 1)
      | r + 1 =>
        let rest := retryGo fn backoff_seconds (attempt + 1) r
        (rest.1, backoff_seconds * 2 ^ attempt :: rest.2.1, rest.2.2 + 1)

/-- Function `with_retry` from utils/retry.py. -/
def with_retry (fn : ℕ → Except ε α) (max_retries : ℕ)
    (backoff_seconds : ℚ) : RetryOutcome ε α × List ℚ × ℕ :=
  retryGo fn backoff_seconds 0 max_retries

/-- The data URLs of the pass-2 (feature detection) calls recorded in a
trace, in order. -/
def pass2Urls : List CallEvent → List String
  | [] => []
  | CallEvent.pass2Call u :: rest => u :: pass2Urls rest
  | CallEvent.pass1Call _ :: rest => pass2Urls rest
  | CallEvent.pass25Call _ _ :: rest => pass2Urls rest

/-! ### Concrete deterministic backends for scenario evaluation -/

deriving instance DecidableEq for Except

/-- Confidence 0.9 as a literal rational (kernel-reducible form). -/
def conf09 : ℚ := ⟨9, 10, by norm_num, by norm_num⟩

/-- Confidence 0.8 as a literal rational (kernel-reducible form). -/
def conf08 : ℚ := ⟨4, 5, by norm_num, by norm_num⟩

/-- Confidence 0.95 as a literal rational (kernel-reducible form). -/
def conf095 : ℚ := ⟨19, 20, by norm_num, by norm_num⟩

/-- Confidence 0.5 as a literal rational (kernel-reducible form). -/
def confHalf : ℚ := ⟨1, 2, by norm_num, by norm_num⟩

/-- Deterministic mock backend realizing the end-to-end scenario of the
spec: `img1` (kitchen, actionable, conf 0.9), `img2` (kitchen,
actionable, conf 0.8), `img3` (facade, not actionable, conf 0.95); the
feature-detection backend reports one feature for every image; the
consolidation backend echoes the room type. -/
def scenarioClient : LLMClient Err where
  pass1 := fun url =>
    if url = "url1" then .ok ⟨"kitchen", true, conf09⟩
    else if url = "url2" then .ok ⟨"kitchen", true, conf08⟩
    else if url = "url3" then .ok ⟨"facade", false, conf095⟩
    else .error "unknown image"
  pass2 := fun _ =>
    .ok ⟨[⟨"damaged_wall", "high", confHalf, "visible crack"⟩]⟩
  pass25 := fun room _ => .ok ⟨room, []⟩

/-- The three scenario images as `(filename, data_url)` pairs. -/
def scenarioImages : List (String × String) :=
  [("img1", "url1"), ("img2", "url2"), ("img3", "url3")]

/-- The property record that `_process_images` produces on the scenario
inputs (checked below by `scenarioRun_eq`). -/
def scenarioResult : PropertyResult :=
  { property_id := "prop1", created_at := "t0",
    images := [
      { filename := "img1", pass1 := ⟨"kitchen", true, conf09⟩,
        pass2 := [⟨"damaged_wall", "high", confHalf, "visible crack"⟩] },
      { filename := "img2", pass1 := ⟨"kitchen", true, conf08⟩,
        pass2 := [⟨"damaged_wall", "high", confHalf, "visible crack"⟩] },
      { filename := "img3", pass1 := ⟨"facade", false, conf095⟩,
        pass2 := [⟨"damaged_wall", "high", confHalf, "visible crack"⟩] }],
    target_images := ["img1", "img2"],
    review_images := ["img3"],
    rooms := [⟨"kitchen", []⟩] }

/-- The backend calls that `_process_images` makes on the scenario
inputs (checked below by `scenarioRun_eq`). -/
def scenarioTrace : List CallEvent :=
  [.pass1Call "url1", .pass2Call "url1", .pass1Call "url2",
   .pass2Call "url2", .pass1Call "url3", .pass2Call "url3",
   .pass25Call "kitchen" ["url1", "url2"]]

/-- Backend for the grouping scenario with room types
`[A, A, B, A]` (A = kitchen allowed, B = facade not allowed), every
image raw-actionable. -/
def groupingClient : LLMClient Err where
  pass1 := fun url =>
    if url = "u3" then .ok ⟨"facade", true, confHalf⟩
    else if url = "u5" then .ok ⟨"facade", true, confHalf⟩
    else .ok ⟨"kitchen", true, confHalf⟩
  pass2 := fun _ => .ok ⟨[]⟩
  pass25 := fun room _ => .ok ⟨room, []⟩

/-- Images for the `[A, A, B, A]` grouping scenario. -/
def groupingImages : List (String × String) :=
  [("i1", "u1"), ("i2", "u2"), ("i3", "u3"), ("i4", "u4")]

/-- Images for the grouping scenario extended with a second facade
image, so that the disallowed room type has 2 ≥ 2 images. -/
def groupingImagesB : List (String × String) :=
  [("i1", "u1"), ("i2", "u2"), ("i3", "u3"), ("i4", "u4"), ("i5", "u5")]

/-- Backend whose gating call fails on `url2` and succeeds elsewhere. -/
def failingGatingClient : LLMClient Err where
  pass1 := fun url =>
    if url = "url2" then .error "gating failed on img2"
    else .ok ⟨"kitchen", true, confHalf⟩
  pass2 := fun _ => .ok ⟨[]⟩
  pass25 := fun room _ => .ok ⟨room, []⟩

/-- Backend whose classifier always reports a disallowed room type with
the model's own actionable flag set. -/
def facadeClient : LLMClient Err where
  pass1 := fun _ => .ok ⟨"facade", true, confHalf⟩
  pass2 := fun _ => .ok ⟨[]⟩
  pass25 := fun room _ => .ok ⟨room, []⟩

/-- A bucket of nine images of one room. -/
def nineItems : List (String × String) :=
  [("i1", "u1"), ("i2", "u2"), ("i3", "u3"), ("i4", "u4"), ("i5", "u5"),
   ("i6", "u6"), ("i7", "u7"), ("i8", "u8"), ("i9", "u9")]

/-! ### Helper lemmas -/

theorem except_bind_ok (x : α) (f : α → Except ε β) :
    (Except.ok x >>= f : Except ε β) = f x := rfl

theorem except_bind_error (e : ε) (f : α → Except ε β) :
    (Except.error e >>= f : Except ε β) = Except.error e := rfl

theorem run_pass1_error {client : LLMClient ε} {url : String} {e : ε}
    (h : client.pass1 url = .error e) :
    run_pass1 client url = .error e := by
  simp [run_pass1, h, except_bind_error]

theorem run_pass1_ok {client : LLMClient ε} {url : String} {raw : Pass1Raw}
    (h : client.pass1 url = .ok raw) :
    run_pass1 client url = .ok
      { room_type := raw.room_type,
        actionable :=
          if ALLOWED_ROOMS.contains raw.room_type then raw.actionable
          else false,
        confidence := raw.confidence } := by
  simp [run_pass1, h, except_bind_ok]

theorem run_pass2_error {client : LLMClient ε} {url : String} {e : ε}
    (h : client.pass2 url = .error e) :
    run_pass2 client url = .error e := by
  simp [run_pass2, h, except_bind_error]

theorem run_pass2_ok {client : LLMClient ε} {url : String} {raw : Pass2Raw}
    (h : client.pass2 url = .ok raw) :
    run_pass2 client url = .ok (raw.features.map (fun item =>
      { feature_id := item.feature_id, severity := item.severity,
        confidence := item.confidence, explanation := item.explanation })) := by
  simp [run_pass2, h, except_bind_ok]

/-- Inversion principle for a successful `_process_images` run: it
decomposes into a successful gate/detect loop and a successful
consolidation phase, and the result record is the assembly of their
outputs. -/
theorem process_images_ok_iff {client : LLMClient ε} {pid t : String}
    {images : List (String × String)} {r : PropertyResult}
    {tr : List CallEvent} :
    _process_images pid t images client = .ok (r, tr) ↔
    ∃ p1 p2 tr1 rooms tr2,
      gateLoop client images [] [] [] = .ok (p1, p2, tr1) ∧
      consolidateGroups client (buildRoomGroups p1 images []) =
        .ok (rooms, tr2) ∧
      r = { property_id := pid, created_at := t,
            images := assembleEntries p1 p2,
            target_images :=
              (targetEntries (assembleEntries p1 p2)).map
                (fun img => img.filename),
            review_images :=
              (reviewEntries (assembleEntries p1 p2)).map
                (fun img => img.filename),
            rooms := rooms } ∧
      tr = tr1 ++ tr2 := by
  unfold _process_images
  cases hg : gateLoop client images [] [] [] with
  | error e =>
    simp only [except_bind_error]
    constructor
    · intro h
      exact absurd h (by simp)
    · rintro ⟨p1, p2, tr1, rooms, tr2, hg', -⟩
      simp [hg] at hg'
  | ok trip =>
    obtain ⟨p1, p2, tr1⟩ := trip
    simp only [except_bind_ok]
    cases hc : consolidateGroups client (buildRoomGroups p1 images []) with
    | error e =>
      simp only [except_bind_error]
      constructor
      · intro h
        exact absurd h (by simp)
      · rintro ⟨p1', p2', tr1', rooms, tr2, hg', hc', -⟩
        obtain ⟨rfl, rfl, rfl⟩ : p1 = p1' ∧ p2 = p2' ∧ tr1 = tr1' := by
          simpa using hg'
        simp [hc] at hc'
    | ok pr =>
      obtain ⟨rooms, tr2⟩ := pr
      simp only [except_bind_ok]
      constructor
      · intro h
        obtain ⟨hr, htr⟩ :
            ({ property_id := pid, created_at := t,
               images := assembleEntries p1 p2,
               target_images :=
                 (targetEntries (assembleEntries p1 p2)).map
                   (fun img => img.filename),
               review_images :=
                 (reviewEntries (assembleEntries p1 p2)).map
                   (fun img => img.filename),
               rooms := rooms } : PropertyResult) = r ∧ tr1 ++ tr2 = tr := by
          simpa using h
        exact ⟨p1, p2, tr1, rooms, tr2, rfl, hc, hr.symm, htr.symm⟩
      · rintro ⟨p1', p2', tr1', rooms', tr2', hg', hc', hr, htr⟩
        obtain ⟨rfl, rfl, rfl⟩ : p1 = p1' ∧ p2 = p2' ∧ tr1 = tr1' := by
          simpa using hg'
        obtain ⟨rfl, rfl⟩ : rooms = rooms' ∧ tr2 = tr2' := by
          rw [hc] at hc'
          simpa using hc'
        simp [hr, htr]

/-- A failing gate/detect loop aborts the whole `_process_images` run
with the same error. -/
theorem process_images_error_of_gateLoop {client : LLMClient ε}
    {pid t : String} {images : List (String × String)} {e : ε}
    (h : gateLoop client images [] [] [] = .error e) :
    _process_images pid t images client = .error e := by
  unfold _process_images
  rw [h, except_bind_error]

theorem pass2Urls_append (a b : List CallEvent) :
    pass2Urls (a ++ b) = pass2Urls a ++ pass2Urls b := by
  induction a with
  | nil => rfl
  | cons ev rest ih => cases ev <;> simp [pass2Urls, ih]

/-- In a successful gate/detect loop, the pass-2 calls recorded in the
final trace are exactly one call per enumerated image, in order, on the
image's data URL. -/
theorem gateLoop_ok_pass2_trace {client : LLMClient ε} :
    ∀ (images : List (String × String)) p1 p2 tr p1' p2' tr',
      gateLoop client images p1 p2 tr = .ok (p1', p2', tr') →
      pass2Urls tr' = pass2Urls tr ++ images.map (fun p => p.2) := by
  intro images
  induction images with
  | nil =>
    intro p1 p2 tr p1' p2' tr' h
    obtain ⟨-, -, rfl⟩ : p1 = p1' ∧ p2 = p2' ∧ tr = tr' := by
      simpa [gateLoop] using h
    simp
  | cons img rest ih =>
    intro p1 p2 tr p1' p2' tr' h
    obtain ⟨name, url⟩ := img
    simp only [gateLoop] at h
    cases h1 : run_pass1 client url with
    | error e => rw [h1, except_bind_error] at h; exact absurd h (by simp)
    | ok pass1 =>
      rw [h1, except_bind_ok] at h
      cases h2 : run_pass2 client url with
      | error e => rw [h2, except_bind_error] at h; exact absurd h (by simp)
      | ok pass2v =>
        rw [h2, except_bind_ok] at h
        have := ih _ _ _ _ _ _ h
        rw [this, pass2Urls_append]
        simp [pass2Urls]

/-- Inserting a key that is not yet present appends the pair at the
end of the dict. -/
theorem dictInsert_of_not_mem {d : List (String × α)} {k : String}
    {v : α} (h : k ∉ d.map (fun p => p.1)) :
    dictInsert d k v = d ++ [(k, v)] := by
  have ha : d.any (fun p => p.1 == k) = false := by
    rw [List.any_eq_false]
    intro p hp
    simp only [beq_iff_eq]
    intro hk
    exact h (by simpa [hk] using List.mem_map_of_mem (fun q => q.1) hp)
  simp [dictInsert, ha]

/-- In a successful gate/detect loop over images with pairwise distinct
names, the final pass-1 dict holds exactly the accumulated keys followed
by the image names, in enumeration order. -/
theorem gateLoop_ok_keys {client : LLMClient ε} :
    ∀ (images : List (String × String)) p1 p2 tr p1' p2' tr',
      gateLoop client images p1 p2 tr = .ok (p1', p2', tr') →
      (p1.map (fun p => p.1) ++ images.map (fun p => p.1)).Nodup →
      p1'.map (fun p => p.1) =
        p1.map (fun p => p.1) ++ images.map (fun p => p.1) := by
  intro images
  induction images with
  | nil =>
    intro p1 p2 tr p1' p2' tr' h _
    obtain ⟨rfl, -, -⟩ : p1 = p1' ∧ p2 = p2' ∧ tr = tr' := by
      simpa [gateLoop] using h
    simp
  | cons img rest ih =>
    intro p1 p2 tr p1' p2' tr' h hnd
    obtain ⟨name, url⟩ := img
    simp only [gateLoop] at h
    cases h1 : run_pass1 client url with
    | error e => rw [h1, except_bind_error] at h; exact absurd h (by simp)
    | ok pass1 =>
      rw [h1, except_bind_ok] at h
      cases h2 : run_pass2 client url with
      | error e => rw [h2, except_bind_error] at h; exact absurd h (by simp)
      | ok pass2v =>
        rw [h2, except_bind_ok] at h
        simp only [List.map_cons] at hnd
        have hfresh : name ∉ p1.map (fun p => p.1) := by
          rw [List.nodup_append] at hnd
          exact fun hmem => hnd.2.2 hmem (by simp)
        rw [dictInsert_of_not_mem hfresh] at h
        have ihh := ih _ _ _ _ _ _ h (by
          simp only [List.map_append, List.map_cons, List.map_nil,
            List.append_assoc, List.singleton_append]
          exact hnd)
        rw [ihh]
        simp

/-- If every backend call for the images before some image succeeds and
the pass-1 (gating) backend call for that image raises, the gate/detect
loop raises that same error. -/
theorem gateLoop_error_of_pass1 {client : LLMClient ε} :
    ∀ (pre : List (String × String)) (name url : String)
      (post : List (String × String)) p1 p2 tr (e : ε),
      (∀ p ∈ pre, (∃ v, client.pass1 p.2 = .ok v) ∧
        (∃ w, client.pass2 p.2 = .ok w)) →
      client.pass1 url = .error e →
      gateLoop client (pre ++ (name, url) :: post) p1 p2 tr = .error e := by
  intro pre
  induction pre with
  | nil =>
    intro name url post p1 p2 tr e _ herr
    simp only [List.nil_append, gateLoop]
    rw [run_pass1_error herr, except_bind_error]
  | cons q rest ih =>
    intro name url post p1 p2 tr e hok herr
    obtain ⟨n, u⟩ := q
    obtain ⟨⟨v, hv⟩, ⟨w, hw⟩⟩ := hok (n, u) (by simp)
    simp only [List.cons_append, gateLoop]
    rw [run_pass1_ok hv, except_bind_ok, run_pass2_ok hw, except_bind_ok]
    exact ih name url post _ _ _ e (fun p hp => hok p (by simp [hp])) herr

/-- If every backend call for the images before some image succeeds,
that image's pass-1 call succeeds, and its pass-2 (feature detection)
call raises, the gate/detect loop raises that same error. -/
theorem gateLoop_error_of_pass2 {client : LLMClient ε} :
    ∀ (pre : List (String × String)) (name url : String)
      (post : List (String × String)) p1 p2 tr (raw : Pass1Raw) (e : ε),
      (∀ p ∈ pre, (∃ v, client.pass1 p.2 = .ok v) ∧
        (∃ w, client.pass2 p.2 = .ok w)) →
      client.pass1 url = .ok raw →
      client.pass2 url = .error e →
      gateLoop client (pre ++ (name, url) :: post) p1 p2 tr = .error e := by
  intro pre
  induction pre with
  | nil =>
    intro name url post p1 p2 tr raw e _ hok1 herr
    simp only [List.nil_append, gateLoop]
    rw [run_pass1_ok hok1, except_bind_ok, run_pass2_error herr,
      except_bind_error]
  | cons q rest ih =>
    intro name url post p1 p2 tr raw e hok hok1 herr
    obtain ⟨n, u⟩ := q
    obtain ⟨⟨v, hv⟩, ⟨w, hw⟩⟩ := hok (n, u) (by simp)
    simp only [List.cons_append, gateLoop]
    rw [run_pass1_ok hv, except_bind_ok, run_pass2_ok hw, except_bind_ok]
    exact ih name url post _ _ _ raw e (fun p hp => hok p (by simp [hp]))
      hok1 herr

/-- The consolidation chunk loop records only pass-2.5 events: its trace
contains no pass-2 calls. -/
theorem consolidateChunks_no_pass2 {client : LLMClient ε} {room : String} :
    ∀ (chunks : List (List (String × String))) res tr,
      consolidateChunks client room chunks = .ok (res, tr) →
      pass2Urls tr = [] := by
  intro chunks
  induction chunks with
  | nil =>
    intro res tr h
    obtain ⟨-, rfl⟩ : res = [] ∧ tr = [] := by
      simpa [consolidateChunks] using h.symm
    rfl
  | cons chunk rest ih =>
    intro res tr h
    simp only [consolidateChunks] at h
    cases h1 : run_pass25 client room (chunk.map (fun p => p.2)) with
    | error e => rw [h1, except_bind_error] at h; exact absurd h (by simp)
    | ok v =>
      rw [h1, except_bind_ok] at h
      cases h2 : consolidateChunks client room rest with
      | error e => rw [h2, except_bind_error] at h; exact absurd h (by simp)
      | ok pr =>
        obtain ⟨res', tr'⟩ := pr
        rw [h2, except_bind_ok] at h
        obtain ⟨-, rfl⟩ : v :: res' = res ∧
            CallEvent.pass25Call room (chunk.map (fun p => p.2)) :: tr' = tr := by
          simpa using h
        simpa [pass2Urls] using ih res' tr' h2

/-- The consolidation phase records only pass-2.5 events: its trace
contains no pass-2 calls. -/
theorem consolidateGroups_no_pass2 {client : LLMClient ε} :
    ∀ (groups : List (String × List (String × String))) res tr,
      consolidateGroups client groups = .ok (res, tr) →
      pass2Urls tr = [] := by
  intro groups
  induction groups with
  | nil =>
    intro res tr h
    obtain ⟨-, rfl⟩ : res = [] ∧ tr = [] := by
      simpa [consolidateGroups] using h.symm
    rfl
  | cons grp rest ih =>
    intro res tr h
    obtain ⟨room, items⟩ := grp
    simp only [consolidateGroups] at h
    by_cases hlen : items.length < 2
    · rw [if_pos hlen] at h
      exact ih res tr h
    · rw [if_neg hlen] at h
      cases h1 : consolidateChunks client room (_chunk_images items 4) with
      | error e => rw [h1, except_bind_error] at h; exact absurd h (by simp)
      | ok pr =>
        obtain ⟨cres, ctr⟩ := pr
        rw [h1, except_bind_ok] at h
        cases h2 : consolidateGroups client rest with
        | error e => rw [h2, except_bind_error] at h; exact absurd h (by simp)
        | ok pr' =>
          obtain ⟨rres, rtr⟩ := pr'
          rw [h2, except_bind_ok] at h
          obtain ⟨-, rfl⟩ : cres ++ rres = res ∧ ctr ++ rtr = tr := by
            simpa using h
          rw [pass2Urls_append, consolidateChunks_no_pass2 _ _ _ h1,
            ih _ _ h2]
          rfl

/-- Every filename of the per-image list lands in the target list or in
the review list. -/
theorem filename_mem_target_or_review (entries : List ImageEntry)
    (fn : String) :
    fn ∈ entries.map (fun e => e.filename) ↔
      fn ∈ (targetEntries entries).map (fun e => e.filename) ∨
      fn ∈ (reviewEntries entries).map (fun e => e.filename) := by
  constructor
  · intro h
    obtain ⟨e, he, rfl⟩ := List.mem_map.mp h
    by_cases ht :
        e.filename ∈ (targetEntries entries).map (fun e' => e'.filename)
    · exact Or.inl ht
    · refine Or.inr (List.mem_map.mpr ⟨e, ?_, rfl⟩)
      simp only [reviewEntries, List.mem_filter]
      exact ⟨he, by simpa using ht⟩
  · rintro (h | h) <;> obtain ⟨e, he, rfl⟩ := List.mem_map.mp h
    · exact List.mem_map.mpr ⟨e, (List.mem_filter.mp he).1, rfl⟩
    · simp only [reviewEntries, List.mem_filter] at he
      exact List.mem_map.mpr ⟨e, he.1, rfl⟩

/-- No filename lands in both the target list and the review list. -/
theorem filename_not_target_and_review (entries : List ImageEntry)
    (fn : String) :
    ¬(fn ∈ (targetEntries entries).map (fun e => e.filename) ∧
      fn ∈ (reviewEntries entries).map (fun e => e.filename)) := by
  rintro ⟨ht, hr⟩
  obtain ⟨e, he, rfl⟩ := List.mem_map.mp hr
  simp only [reviewEntries, List.mem_filter] at he
  exact absurd ht (by simpa using he.2)

/-- Cons form of the list of backoff durations. -/
theorem range_pow_cons (b : ℚ) (attempt k : ℕ) :
    (List.range (k + 1)).map (fun i => b * 2 ^ (attempt + i)) =
      b * 2 ^ attempt ::
        (List.range k).map (fun i => b * 2 ^ (attempt + 1 + i)) := by
  rw [List.range_succ_eq_map]
  simp only [List.map_cons, List.map_map, Function.comp]
  refine congrArg₂ _ (by simp) ?_
  have : (fun i => b * 2 ^ (attempt + (i + 1))) =
      (fun i => b * 2 ^ (attempt + 1 + i)) := by
    funext i
    have heq : attempt + (i + 1) = attempt + 1 + i := by omega
    rw [heq]
  simpa using congrArg (List.range k).map this

/-- Behavior of the retry loop when the operation fails `k` times and
then succeeds: the success value comes back after exactly `k` sleeps
doubling from `b * 2 ^ attempt`, and `k + 1` invocations. -/
theorem retryGo_ok_after (fn : ℕ → Except ε α) (b : ℚ) (v : α)
    (es : ℕ → ε) :
    ∀ (k attempt remaining : ℕ),
      k ≤ remaining →
      (∀ i, i < k → fn (attempt + i) = .error (es (attempt + i))) →
      fn (attempt + k) = .ok v →
      retryGo fn b attempt remaining =
        (.ok v, (List.range k).map (fun i => b * 2 ^ (attempt + i)),
         k + 1) := by
  intro k
  induction k with
  | zero =>
    intro attempt remaining _ _ hok
    simp only [Nat.add_zero] at hok
    rw [retryGo, hok]
    simp
  | succ k ih =>
    intro attempt remaining hle hfail hok
    have h0 : fn attempt = .error (es attempt) := by
      simpa using hfail 0 (by omega)
    cases remaining with
    | zero => omega
    | succ r =>
      rw [retryGo, h0]
      have ihh := ih (attempt + 1) r (by omega)
        (fun i hi => by
          have heq : attempt + 1 + i = attempt + (i + 1) := by omega
          rw [heq]
          exact hfail (i + 1) (by omega))
        (by
          have heq : attempt + 1 + k = attempt + (k + 1) := by omega
          rw [heq]
          exact hok)
      simp only [ihh, range_pow_cons]

/-- Behavior of the retry loop when every permitted invocation fails:
the last failure is wrapped, after exactly `remaining` sleeps and
`remaining + 1` invocations. -/
theorem retryGo_exhaust (fn : ℕ → Except ε α) (b : ℚ) (es : ℕ → ε) :
    ∀ (remaining attempt : ℕ),
      (∀ i, attempt ≤ i → i ≤ attempt + remaining → fn i = .error (es i)) →
      retryGo fn b attempt remaining =
        (.exhausted (es (attempt + remaining)),
         (List.range remaining).map (fun i => b * 2 ^ (attempt + i)),
         remaining + 1) := by
  intro remaining
  induction remaining with
  | zero =>
    intro attempt hfail
    have h0 : fn attempt = .error (es attempt) := hfail attempt le_rfl (by omega)
    rw [retryGo, h0]
    simp
  | succ r ih =>
    intro attempt hfail
    have h0 : fn attempt = .error (es attempt) :=
      hfail attempt le_rfl (by omega)
    rw [retryGo, h0]
    have ihh := ih (attempt + 1)
      (fun i hi hi' => hfail i (by omega) (by omega))
    have heq : attempt + 1 + r = attempt + (r + 1) := by omega
    rw [heq] at ihh
    simp only [ihh, range_pow_cons]

/-- Arithmetic step for the chunk count: for a nonempty list, the
number of chunks is one more than the number of chunks of the rest. -/
theorem ceil_div_succ {L n : ℕ} (hn : 0 < n) (hL : 0 < L) :
    (L + n - 1) / n = (L - n + n - 1) / n + 1 := by
  rcases le_or_lt L n with h | h
  · have h1 : L - n = 0 := by omega
    rw [h1]
    have h2 : (L + n - 1) / n = 1 := by
      apply Nat.div_eq_of_lt_le <;> omega
    have h3 : (0 + n - 1) / n = 0 := Nat.div_eq_of_lt (by omega)
    rw [h2, h3]
  · have heq : L + n - 1 = (L - n + n - 1) + n := by omega
    rw [heq, Nat.add_div_right _ hn]

/-- Recursive decomposition of `_chunk_images`: the first chunk is the
first `n` items, the rest are the chunks of the remaining items. -/
theorem chunk_images_cons {items : List α} {n : ℕ} (hn : 0 < n)
    (hne : items ≠ []) :
    _chunk_images items n = items.take n :: _chunk_images (items.drop n) n := by
  have hL : 0 < items.length := List.length_pos.mpr hne
  unfold _chunk_images
  rw [List.length_drop, ceil_div_succ hn hL, List.range_succ_eq_map]
  simp only [List.map_cons, List.map_map, Function.comp]
  congr 1
  · simp
  · have hfun : (fun i => (items.drop ((i + 1) * n)).take n) =
        (fun i => (((items.drop n).drop (i * n)).take n)) := by
      funext i
      rw [List.drop_drop]
      congr 2
      rw [Nat.succ_mul, Nat.add_comm]
    simpa using congrArg (List.range ((items.length - n + n - 1) / n)).map hfun

/-- Joining the chunks gives back the original list. -/
theorem chunk_images_join {n : ℕ} (hn : 0 < n) (items : List α) :
    (_chunk_images items n).flatten = items := by
  by_cases hne : items = []
  · subst hne
    have h0 : (0 + n - 1) / n = 0 := Nat.div_eq_of_lt (by omega)
    simp [_chunk_images, h0]
  · rw [chunk_images_cons hn hne, List.flatten_cons,
      chunk_images_join hn (items.drop n)]
    exact List.take_append_drop n items
termination_by items.length
decreasing_by
  have := List.length_pos.mpr hne
  simp [List.length_drop]
  omega

/-- Every chunk has at most `n` elements. -/
theorem chunk_images_length_le {n : ℕ} (items : List α) (c : List α)
    (hc : c ∈ _chunk_images items n) : c.length ≤ n := by
  unfold _chunk_images at hc
  obtain ⟨i, -, rfl⟩ := List.mem_map.mp hc
  rw [List.length_take]
  exact min_le_left _ _

/-- Evaluation of the pipeline on the scenario inputs: the record and
the call trace it produces. -/
theorem scenarioRun_eq :
    _process_images "prop1" "t0" scenarioImages scenarioClient =
      .ok (scenarioResult, scenarioTrace) := by
  decide

/-! ### Claim theorems -/

/-- C3: for every operation, `maxRetries ≥ 0` and `backoffSeconds > 0`,
an operation that fails exactly `k ≤ maxRetries` times and then succeeds
returns the success value after exactly `k` backoff sleeps of durations
`backoffSeconds·2^0, …, backoffSeconds·2^(k-1)`; an operation that
always fails performs exactly `maxRetries` sleeps, `maxRetries + 1`
invocations, and raises the retry-exhausted error wrapping the last
failure. -/
theorem with_retry_contract {ε α : Type} (fn : ℕ → Except ε α)
    (max_retries k : ℕ) (backoff_seconds : ℚ) (v : α) (es : ℕ → ε)
    (hb : 0 < backoff_seconds) :
    (k ≤ max_retries →
      (∀ i, i < k → fn i = .error (es i)) →
      fn k = .ok v →
      with_retry fn max_retries backoff_seconds =
        (.ok v, (List.range k).map (fun i => backoff_seconds * 2 ^ i),
         k + 1)) ∧
    ((∀ i, i ≤ max_retries → fn i = .error (es i)) →
      with_retry fn max_retries backoff_seconds =
        (.exhausted (es max_retries),
         (List.range max_retries).map (fun i => backoff_seconds * 2 ^ i),
         max_retries + 1)) := by
  constructor
  · intro hk hfail hok
    have h := retryGo_ok_after fn backoff_seconds v es k 0 max_retries hk
      (fun i hi => by simpa using hfail i hi) (by simpa using hok)
    simpa [with_retry] using h
  · intro hfail
    have h := retryGo_exhaust fn backoff_seconds es max_retries 0
      (fun i h0 hle => hfail i (by omega))
    simpa [with_retry] using h

/-- Witness for C3: an operation failing twice then succeeding with
`maxRetries = 3`, `backoffSeconds = 3/2`, and an always-failing
operation with the same settings. -/
theorem with_retry_contract_witness :
    with_retry (fun i => if i < 2 then (.error "boom" : Except Err ℕ)
        else .ok 42) 3 (3/2) =
      (.ok 42, (List.range 2).map (fun i => (3/2 : ℚ) * 2 ^ i), 3) ∧
    with_retry (fun _ => (.error "boom" : Except Err ℕ)) 3 (3/2) =
      (.exhausted "boom",
       (List.range 3).map (fun i => (3/2 : ℚ) * 2 ^ i), 4) := by
  constructor
  · exact (with_retry_contract
      (fun i => if i < 2 then (.error "boom" : Except Err ℕ) else .ok 42)
      3 2 (3/2) 42 (fun _ => "boom") (by norm_num)).1
      (by omega) (fun i hi => by interval_cases i <;> rfl) rfl
  · exact (with_retry_contract (fun _ => (.error "boom" : Except Err ℕ))
      3 0 (3/2) 42 (fun _ => "boom") (by norm_num)).2 (fun i _ => rfl)

/-- C5: whatever classification the backend returns, the gating stage
forces `actionable = false` whenever the returned room type is outside
the allow-list, and passes room type and confidence through unchanged
(and the model's actionable flag is honored only for allowed rooms). -/
theorem gating_allowlist_policy {ε : Type} (client : LLMClient ε)
    (url : String) (raw : Pass1Raw) (h : client.pass1 url = .ok raw) :
    run_pass1 client url = .ok
      { room_type := raw.room_type,
        actionable :=
          if ALLOWED_ROOMS.contains raw.room_type then raw.actionable
          else false,
        confidence := raw.confidence } ∧
    (raw.room_type ∉ ALLOWED_ROOMS →
      run_pass1 client url = .ok
        { room_type := raw.room_type, actionable := false,
          confidence := raw.confidence }) := by
  refine ⟨run_pass1_ok h, fun hmem => ?_⟩
  have hc : ALLOWED_ROOMS.contains raw.room_type = false := by
    simpa using hmem
  have hif : (if ALLOWED_ROOMS.contains raw.room_type then raw.actionable
      else false) = false :=
    if_neg (by simp only [hc]; exact Bool.false_ne_true)
  rw [run_pass1_ok h, hif]

/-- Witness for C5: a classifier reporting (facade, actionable) is
gated to not actionable, with room type and confidence preserved. -/
theorem gating_allowlist_policy_witness :
    run_pass1 facadeClient "u" =
      .ok { room_type := "facade", actionable := false,
            confidence := confHalf } :=
  (gating_allowlist_policy facadeClient "u" ⟨"facade", true, confHalf⟩
    rfl).2 (by decide)

/-- C8: a room-type bucket with fewer than 2 images produces no
consolidation call and no result entry — processing just moves on to
the remaining buckets, and a run consisting only of such a bucket
succeeds with empty output (no error). -/
theorem small_bucket_skipped {ε : Type} (client : LLMClient ε)
    (room : String) (items : List (String × String))
    (rest : List (String × List (String × String)))
    (h : items.length < 2) :
    consolidateGroups client ((room, items) :: rest) =
      consolidateGroups client rest ∧
    consolidateGroups client [(room, items)] = .ok ([], []) := by
  constructor
  · simp only [consolidateGroups]
    rw [if_pos h]
  · simp only [consolidateGroups]
    rw [if_pos h]

/-- Witness for C8: a singleton kitchen bucket is skipped without an
error and yields no room consolidations. -/
theorem small_bucket_skipped_witness :
    consolidateGroups scenarioClient [("kitchen", [("img1", "url1")])] =
      .ok ([], []) :=
  (small_bucket_skipped scenarioClient "kitchen" [("img1", "url1")] []
    (by decide)).2

/-- C1 counterexample: on the scenario inputs the orchestrator does
invoke feature detection (pass 2) on `img3`, whose gating result is not
actionable and whose room type (facade) is outside the allow-list, and
`img3` appears in the per-image output with the non-empty feature list
pass 2 returned rather than an empty one. -/
theorem pass2_gating_counterexample :
    _process_images "prop1" "t0" scenarioImages scenarioClient =
      .ok (scenarioResult, scenarioTrace) ∧
    CallEvent.pass2Call "url3" ∈ scenarioTrace ∧
    scenarioResult.images.filter (fun e => e.filename == "img3") =
      [{ filename := "img3", pass1 := ⟨"facade", false, conf095⟩,
         pass2 := [⟨"damaged_wall", "high", confHalf, "visible crack"⟩] }] :=
  ⟨scenarioRun_eq, by decide, by decide⟩

/-- C1 (amended): the orchestrator invokes feature detection exactly
once per enumerated image, in enumeration order, regardless of the
image's gating result and room type; every image stays in the per-image
output with the feature list pass 2 returned. -/
theorem pass2_invoked_for_every_image {ε : Type} (client : LLMClient ε)
    (pid t : String) (images : List (String × String))
    (r : PropertyResult) (tr : List CallEvent)
    (h : _process_images pid t images client = .ok (r, tr)) :
    pass2Urls tr = images.map (fun p => p.2) := by
  obtain ⟨p1, p2, tr1, rooms, tr2, hg, hc, -, rfl⟩ :=
    process_images_ok_iff.mp h
  rw [pass2Urls_append, gateLoop_ok_pass2_trace images [] [] [] p1 p2 tr1 hg,
    consolidateGroups_no_pass2 (buildRoomGroups p1 images []) rooms tr2 hc]
  simp [pass2Urls]

/-- Witness for the amended C1 at the scenario inputs. -/
theorem pass2_invoked_for_every_image_witness :
    pass2Urls scenarioTrace = scenarioImages.map (fun p => p.2) :=
  pass2_invoked_for_every_image scenarioClient "prop1" "t0" scenarioImages
    scenarioResult scenarioTrace scenarioRun_eq

/-- C2 counterexample: on the scenario inputs the per-image list of the
result contains `img3` (the facade image) as well, not only `img1` and
`img2`. -/
theorem per_image_narrowing_counterexample :
    _process_images "prop1" "t0" scenarioImages scenarioClient =
      .ok (scenarioResult, scenarioTrace) ∧
    scenarioResult.images.map (fun e => e.filename) =
      ["img1", "img2", "img3"] :=
  ⟨scenarioRun_eq, by decide⟩

/-- C2 (amended): for distinct image names, the per-image list of the
assembled result contains every enumerated image — allowed or not — in
enumeration order. -/
theorem per_image_list_contains_all_images {ε : Type}
    (client : LLMClient ε) (pid t : String)
    (images : List (String × String)) (r : PropertyResult)
    (tr : List CallEvent)
    (hnd : (images.map (fun p => p.1)).Nodup)
    (h : _process_images pid t images client = .ok (r, tr)) :
    r.images.map (fun e => e.filename) = images.map (fun p => p.1) := by
  obtain ⟨p1, p2, tr1, rooms, tr2, hg, -, rfl, -⟩ :=
    process_images_ok_iff.mp h
  have hkeys := gateLoop_ok_keys images [] [] [] p1 p2 tr1 hg
    (by simpa using hnd)
  have hassemble : (assembleEntries p1 p2).map (fun e => e.filename) =
      p1.map (fun p => p.1) := by
    simp [assembleEntries, List.map_map, Function.comp]
  show (assembleEntries p1 p2).map (fun e => e.filename) =
    images.map (fun p => p.1)
  rw [hassemble]
  simpa using hkeys

/-- Witness for the amended C2 at the scenario inputs. -/
theorem per_image_list_contains_all_images_witness :
    scenarioResult.images.map (fun e => e.filename) =
      scenarioImages.map (fun p => p.1) :=
  per_image_list_contains_all_images scenarioClient "prop1" "t0"
    scenarioImages scenarioResult scenarioTrace (by decide) scenarioRun_eq

/-- C4: if every backend call for the images before some image
succeeds and that image's gating call (or its feature-detection call)
raises an unrecoverable error, the whole property run aborts with that
same propagated error — no partial result record is produced. -/
theorem stage_error_aborts_run {ε : Type} (client : LLMClient ε)
    (pid t name url : String) (pre post : List (String × String)) (e : ε)
    (hpre : ∀ p ∈ pre, (∃ v, client.pass1 p.2 = .ok v) ∧
      (∃ w, client.pass2 p.2 = .ok w)) :
    (client.pass1 url = .error e →
      _process_images pid t (pre ++ (name, url) :: post) client =
        .error e) ∧
    (∀ raw, client.pass1 url = .ok raw → client.pass2 url = .error e →
      _process_images pid t (pre ++ (name, url) :: post) client =
        .error e) := by
  constructor
  · intro herr
    exact process_images_error_of_gateLoop
      (gateLoop_error_of_pass1 pre name url post [] [] [] e hpre herr)
  · intro raw hok herr
    exact process_images_error_of_gateLoop
      (gateLoop_error_of_pass2 pre name url post [] [] [] raw e hpre hok
        herr)

/-- Witness for C4: a backend whose gating call fails on the second
image aborts the whole run with that error. -/
theorem stage_error_aborts_run_witness :
    _process_images "p" "t" [("img1", "url1"), ("img2", "url2")]
      failingGatingClient = .error "gating failed on img2" :=
  (stage_error_aborts_run failingGatingClient "p" "t" "img2" "url2"
    [("img1", "url1")] [] "gating failed on img2"
    (by
      intro p hp
      simp only [List.mem_singleton] at hp
      subst hp
      exact ⟨⟨_, rfl⟩, ⟨_, rfl⟩⟩)).1 rfl

/-- C6: with images of room types [A, A, B, A] (A = kitchen allowed,
B = facade disallowed), all raw-actionable, the kitchen bucket contains
exactly the three A-images in original relative order; and even with
two facade images (≥ 2), facade produces no consolidation entry and no
consolidation call. -/
theorem grouping_buckets_allowlist :
    (gateLoop groupingClient groupingImages [] [] []).map
        (fun out => buildRoomGroups out.1 groupingImages []) =
      .ok [("kitchen", [("i1", "u1"), ("i2", "u2"), ("i4", "u4")])] ∧
    (_process_images "p" "t" groupingImagesB groupingClient).map
        (fun out => (out.1.rooms.map (fun pr => pr.room_type),
          out.2.filter (fun ev =>
            match ev with
            | CallEvent.pass25Call room _ => room == "facade"
            | _ => false))) =
      .ok (["kitchen"], []) := by
  exact ⟨by decide, by decide⟩

/-- C9: two runs of the pipeline on the same deterministic backend and
the same image set produce results identical in every field except
`created_at` (and identical call traces). -/
theorem pipeline_deterministic_up_to_created_at {ε : Type}
    (client : LLMClient ε) (pid t1 t2 : String)
    (images : List (String × String)) (r1 r2 : PropertyResult)
    (tr1 tr2 : List CallEvent)
    (h1 : _process_images pid t1 images client = .ok (r1, tr1))
    (h2 : _process_images pid t2 images client = .ok (r2, tr2)) :
    r1.property_id = r2.property_id ∧ r1.images = r2.images ∧
    r1.target_images = r2.target_images ∧
    r1.review_images = r2.review_images ∧ r1.rooms = r2.rooms ∧
    r1.created_at = t1 ∧ r2.created_at = t2 ∧ tr1 = tr2 := by
  obtain ⟨p1, p2, tra, rooms, trb, hg, hc, rfl, rfl⟩ :=
    process_images_ok_iff.mp h1
  obtain ⟨p1', p2', tra', rooms', trb', hg', hc', rfl, rfl⟩ :=
    process_images_ok_iff.mp h2
  rw [hg] at hg'
  obtain ⟨rfl, rfl, rfl⟩ : p1 = p1' ∧ p2 = p2' ∧ tra = tra' := by
    simpa using hg'
  rw [hc] at hc'
  obtain ⟨rfl, rfl⟩ : rooms = rooms' ∧ trb = trb' := by
    simpa using hc'
  exact ⟨rfl, rfl, rfl, rfl, rfl, rfl, rfl, rfl⟩

/-- Witness for C9: two scenario runs with timestamps t0 and t1. -/
theorem pipeline_deterministic_witness :
    scenarioResult.property_id =
      ({ scenarioResult with created_at := "t1" }).property_id ∧
    scenarioResult.images =
      ({ scenarioResult with created_at := "t1" }).images ∧
    scenarioResult.target_images =
      ({ scenarioResult with created_at := "t1" }).target_images ∧
    scenarioResult.review_images =
      ({ scenarioResult with created_at := "t1" }).review_images ∧
    scenarioResult.rooms =
      ({ scenarioResult with created_at := "t1" }).rooms ∧
    scenarioResult.created_at = "t0" ∧
    ({ scenarioResult with created_at := "t1" }).created_at = "t1" ∧
    scenarioTrace = scenarioTrace :=
  pipeline_deterministic_up_to_created_at scenarioClient "prop1" "t0" "t1"
    scenarioImages scenarioResult { scenarioResult with created_at := "t1" }
    scenarioTrace scenarioTrace scenarioRun_eq (by decide)

/-- C10: the target and review lists partition the filenames of the
per-image list — every per-image filename is in at least one of the two
and none is in both — and the target list consists, in enumeration
order, of exactly the per-image entries whose room type is kitchen or
bathroom and whose actionable flag is true. -/
theorem target_review_partition {ε : Type} (client : LLMClient ε)
    (pid t : String) (images : List (String × String))
    (r : PropertyResult) (tr : List CallEvent)
    (h : _process_images pid t images client = .ok (r, tr)) :
    r.target_images =
      (r.images.filter (fun e =>
        target_rooms.contains e.pass1.room_type && e.pass1.actionable)).map
        (fun e => e.filename) ∧
    (∀ fn, fn ∈ r.images.map (fun e => e.filename) ↔
      (fn ∈ r.target_images ∨ fn ∈ r.review_images)) ∧
    (∀ fn, ¬(fn ∈ r.target_images ∧ fn ∈ r.review_images)) := by
  obtain ⟨p1, p2, tr1, rooms, tr2, -, -, rfl, -⟩ :=
    process_images_ok_iff.mp h
  refine ⟨rfl, ?_, ?_⟩
  · intro fn
    exact filename_mem_target_or_review (assembleEntries p1 p2) fn
  · intro fn
    exact filename_not_target_and_review (assembleEntries p1 p2) fn

/-- C7: consolidation splits every bucket into chunks of at most 4
images (concatenation of the chunks is the bucket, so order is
preserved), one consolidation call per chunk; a bucket of 9 images
yields chunks of sizes [4, 4, 1], producing exactly 3 consolidation
calls whose concatenated inputs are the bucket's data URLs in order. -/
theorem consolidation_chunking {ε : Type} (client : LLMClient ε)
    (room : String) (items : List (String × String))
    (results : List Pass25Result) (trace : List CallEvent)
    (h9 : items.length = 9)
    (h : consolidateGroups client [(room, items)] = .ok (results, trace)) :
    (∀ (l : List (String × String)), (_chunk_images l 4).flatten = l) ∧
    (∀ c ∈ _chunk_images items 4, c.length ≤ 4) ∧
    (_chunk_images items 4).map (fun c => c.length) = [4, 4, 1] ∧
    results.length = 3 ∧
    trace = [
      CallEvent.pass25Call room ((items.take 4).map (fun p => p.2)),
      CallEvent.pass25Call room
        (((items.drop 4).take 4).map (fun p => p.2)),
      CallEvent.pass25Call room
        (((items.drop 4).drop 4).map (fun p => p.2))] ∧
    ((items.take 4).map (fun p => p.2)) ++
      (((items.drop 4).take 4).map (fun p => p.2)) ++
      (((items.drop 4).drop 4).map (fun p => p.2)) =
      items.map (fun p => p.2) := by
  have hne1 : items ≠ [] := by
    intro h0
    rw [h0] at h9
    simp at h9
  have hlen2 : (items.drop 4).length = 5 := by
    rw [List.length_drop, h9]
  have hne2 : items.drop 4 ≠ [] := by
    intro h0
    rw [h0] at hlen2
    simp at hlen2
  have hlen3 : ((items.drop 4).drop 4).length = 1 := by
    rw [List.length_drop, hlen2]
  have hne3 : (items.drop 4).drop 4 ≠ [] := by
    intro h0
    rw [h0] at hlen3
    simp at hlen3
  have hnil : (((items.drop 4).drop 4)).drop 4 = [] := by
    apply List.eq_nil_of_length_eq_zero
    rw [List.length_drop, hlen3]
  have htake3 : ((items.drop 4).drop 4).take 4 = (items.drop 4).drop 4 :=
    List.take_of_length_le (by rw [hlen3]; omega)
  have hthird : _chunk_images ((items.drop 4).drop 4) 4 =
      [(items.drop 4).drop 4] := by
    rw [chunk_images_cons (by norm_num) hne3, hnil, htake3]
    rfl
  have hchunks : _chunk_images items 4 =
      [items.take 4, (items.drop 4).take 4, (items.drop 4).drop 4] := by
    rw [chunk_images_cons (by norm_num) hne1,
      chunk_images_cons (by norm_num) hne2, hthird]
  refine ⟨fun l => chunk_images_join (by norm_num) l,
    fun c hc => chunk_images_length_le items c hc, ?_, ?_⟩
  · rw [hchunks]
    simp only [List.map_cons, List.map_nil, List.length_take,
      List.length_drop, h9, hlen2, hlen3]
    norm_num
  · simp only [consolidateGroups] at h
    rw [if_neg (by omega)] at h
    rw [hchunks] at h
    simp only [consolidateChunks] at h
    cases hr1 : run_pass25 client room ((items.take 4).map (fun p => p.2)) with
    | error e =>
      rw [hr1] at h
      simp only [except_bind_error] at h
      exact absurd h (by simp)
    | ok v1 =>
      rw [hr1] at h
      simp only [except_bind_ok] at h
      cases hr2 : run_pass25 client room
          (((items.drop 4).take 4).map (fun p => p.2)) with
      | error e =>
        rw [hr2] at h
        simp only [except_bind_error] at h
        exact absurd h (by simp)
      | ok v2 =>
        rw [hr2] at h
        simp only [except_bind_ok] at h
        cases hr3 : run_pass25 client room
            (((items.drop 4).drop 4).map (fun p => p.2)) with
        | error e =>
          rw [hr3] at h
          simp only [except_bind_error] at h
          exact absurd h (by simp)
        | ok v3 =>
          rw [hr3] at h
          simp only [except_bind_ok, List.append_nil, Except.ok.injEq,
            Prod.mk.injEq] at h
          obtain ⟨rfl, rfl⟩ := h
          refine ⟨rfl, rfl, ?_⟩
          rw [List.append_assoc, ← List.map_append, List.take_append_drop,
            ← List.map_append, List.take_append_drop]

/-- Witness for C7: the nine-image kitchen bucket under the scenario
backend. -/
theorem consolidation_chunking_witness :
    (_chunk_images nineItems 4).flatten = nineItems ∧
    (_chunk_images nineItems 4).map (fun c => c.length) = [4, 4, 1] := by
  obtain ⟨hjoin, -, hsizes, -, -, -⟩ := consolidation_chunking
    scenarioClient "kitchen" nineItems
    [⟨"kitchen", []⟩, ⟨"kitchen", []⟩, ⟨"kitchen", []⟩]
    [CallEvent.pass25Call "kitchen" ["u1", "u2", "u3", "u4"],
     CallEvent.pass25Call "kitchen" ["u5", "u6", "u7", "u8"],
     CallEvent.pass25Call "kitchen" ["u9"]]
    (by decide) (by decide)
  exact ⟨hjoin nineItems, hsizes⟩

/-- Witness for C10 at the scenario inputs. -/
theorem target_review_partition_witness :
    scenarioResult.target_images =
      (scenarioResult.images.filter (fun e =>
        target_rooms.contains e.pass1.room_type && e.pass1.actionable)).map
        (fun e => e.filename) ∧
    ("img3" ∈ scenarioResult.images.map (fun e => e.filename) ↔
      ("img3" ∈ scenarioResult.target_images ∨
       "img3" ∈ scenarioResult.review_images)) ∧
    ¬("img1" ∈ scenarioResult.target_images ∧
      "img1" ∈ scenarioResult.review_images) := by
  obtain ⟨h1, h2, h3⟩ := target_review_partition scenarioClient "prop1"
    "t0" scenarioImages scenarioResult scenarioTrace scenarioRun_eq
  exact ⟨h1, h2 "img3", h3 "img1"⟩

end RealviewChat
